import Mathlib

/-!
# NillionVault proof-protocol verification

Shallow embedding of the proof-hash protocol of the NillionVault
repository: the canonicalization/hashing utility (`src/tools/hash.js`),
the route-local hash functions (`src/backend/routes/credentials.js`,
`src/backend/routes/verification.js`), the upload/verify handlers, the
anchor service (`src/backend/services/anchor.js`) and the plaintext-field
validation of the storage service (`src/backend/services/nillion.js`).

JavaScript values are modelled by an inductive `Json` type; JSON numbers
are modelled as integers (every payload appearing in the specification
and in the routes' scenarios is integer-valued; IEEE-754 formatting is
out of scope).  Machine words are modelled as `Nat` with explicit
`% 2^32` reductions.
-/

namespace NillionVault

/-! ## SHA-256 (the Node `crypto` primitive used by every hash path)

Modelled from the spec: the repository calls Node's built-in
`crypto.createHash('sha256')`, whose source is not part of the
repository.  The function below is FIPS 180-4 SHA-256, computed over
byte lists with 32-bit words represented as `Nat` reduced mod `2^32`,
producing the lowercase hex digest exactly as `digest('hex')` does. -/

/-- 2^32, the modulus for 32-bit words. -/
def w32 : Nat := 4294967296

/-- Addition of 32-bit words. -/
def add32 (a b : Nat) : Nat := (a + b) % w32

/-- Right rotation of a 32-bit word by `n` bits. -/
def rotr32 (n x : Nat) : Nat := ((x >>> n) ||| (x <<< (32 - n))) % w32

/-- SHA-256 `Ch` function. -/
def sha2Ch (e f g : Nat) : Nat := (e &&& f) ^^^ ((e ^^^ 4294967295) &&& g)

/-- SHA-256 `Maj` function. -/
def sha2Maj (a b c : Nat) : Nat := (a &&& b) ^^^ (a &&& c) ^^^ (b &&& c)

/-- SHA-256 big sigma-0. -/
def bigSigma0 (a : Nat) : Nat := rotr32 2 a ^^^ rotr32 13 a ^^^ rotr32 22 a

/-- SHA-256 big sigma-1. -/
def bigSigma1 (e : Nat) : Nat := rotr32 6 e ^^^ rotr32 11 e ^^^ rotr32 25 e

/-- SHA-256 small sigma-0. -/
def smallSigma0 (x : Nat) : Nat := rotr32 7 x ^^^ rotr32 18 x ^^^ (x >>> 3)

/-- SHA-256 small sigma-1. -/
def smallSigma1 (x : Nat) : Nat := rotr32 17 x ^^^ rotr32 19 x ^^^ (x >>> 10)

/-- The 64 SHA-256 round constants (in decimal). -/
def sha2K : List Nat :=
  [1116352408, 1899447441, 3049323471, 3921009573, 961987163,
   1508970993, 2453635748, 2870763221, 3624381080, 310598401,
   607225278, 1426881987, 1925078388, 2162078206, 2614888103,
   3248222580, 3835390401, 4022224774, 264347078, 604807628,
   770255983, 1249150122, 1555081692, 1996064986, 2554220882,
   2821834349, 2952996808, 3210313671, 3336571891, 3584528711,
   113926993, 338241895, 666307205, 773529912, 1294757372,
   1396182291, 1695183700, 1986661051, 2177026350, 2456956037,
   2730485921, 2820302411, 3259730800, 3345764771, 3516065817,
   3600352804, 4094571909, 275423344, 430227734, 506948616,
   659060556, 883997877, 958139571, 1322822218, 1537002063,
   1747873779, 1955562222, 2024104815, 2227730452, 2361852424,
   2428436474, 2756734187, 3204031479, 3329325298]

/-- Working state: the eight 32-bit hash registers. -/
structure Sha2State where
  a : Nat
  b : Nat
  c : Nat
  d : Nat
  e : Nat
  f : Nat
  g : Nat
  h : Nat
deriving Repr, DecidableEq

/-- SHA-256 initial hash value (in decimal). -/
def sha2H0 : Sha2State :=
  ⟨1779033703, 3144134277, 1013904242, 2773480762,
   1359893119, 2600822924, 528734635, 1541459225⟩

/-- Big-endian byte decomposition of `n` into `k` bytes. -/
def natToBytesBE : Nat → Nat → List Nat
  | 0, _ => []
  | k + 1, n => natToBytesBE k (n / 256) ++ [n % 256]

/-- SHA-256 padding: append `0x80`, zeros, and the 8-byte big-endian bit length. -/
def sha2Pad (msg : List Nat) : List Nat :=
  let l := msg.length
  let zeros := (64 - (l + 9) % 64) % 64
  msg ++ 0x80 :: List.replicate zeros 0 ++ natToBytesBE 8 (l * 8)

/-- Group bytes into big-endian 32-bit words. -/
def bytesToWords : List Nat → List Nat
  | b1 :: b2 :: b3 :: b4 :: rest => (((b1 * 256 + b2) * 256 + b3) * 256 + b4) :: bytesToWords rest
  | _ => []

/-- One extension step of the message schedule: append the next word. -/
def scheduleStep (word : List Nat) : List Nat :=
  let n := word.length
  let next := (smallSigma1 (word.getD (n - 2) 0) + word.getD (n - 7) 0 +
      smallSigma0 (word.getD (n - 15) 0) + word.getD (n - 16) 0) % w32
  word ++ [next]

/-- Extend the 16 block words to the 64-entry message schedule. -/
def sha2Schedule (word : List Nat) : List Nat :=
  Nat.rec word (fun _ acc => scheduleStep acc) 48

/-- One SHA-256 compression round. -/
def sha2Round (st : Sha2State) (wk : Nat × Nat) : Sha2State :=
  let t1 := (st.h + bigSigma1 st.e + sha2Ch st.e st.f st.g + wk.2 + wk.1) % w32
  let t2 := (bigSigma0 st.a + sha2Maj st.a st.b st.c) % w32
  ⟨(t1 + t2) % w32, st.a, st.b, st.c, (st.d + t1) % w32, st.e, st.f, st.g⟩

/-- Process one 64-byte block. -/
def sha2Block (hv : Sha2State) (chunk : List Nat) : Sha2State :=
  let sched := sha2Schedule (bytesToWords chunk)
  let st := (sched.zip sha2K).foldl sha2Round hv
  ⟨add32 hv.a st.a, add32 hv.b st.b, add32 hv.c st.c, add32 hv.d st.d,
   add32 hv.e st.e, add32 hv.f st.f, add32 hv.g st.g, add32 hv.h st.h⟩

/-- Split a byte list into 64-byte chunks (fuel-driven). -/
def chunks64Go : Nat → List Nat → List (List Nat)
  | 0, _ => []
  | _ + 1, [] => []
  | fuel + 1, l => l.take 64 :: chunks64Go fuel (l.drop 64)

/-- Split a byte list into 64-byte chunks. -/
def chunks64 (l : List Nat) : List (List Nat) := chunks64Go l.length l

/-- The lowercase hex digit character for a value below 16. -/
def hexDigit (n : Nat) : Char :=
  if n < 10 then Char.ofNat (48 + n) else Char.ofNat (87 + n)

/-- Lowercase hex rendering of one 32-bit word (8 digits). -/
def wordToHex (x : Nat) : List Char :=
  [hexDigit ((x >>> 28) &&& 15), hexDigit ((x >>> 24) &&& 15), hexDigit ((x >>> 20) &&& 15),
   hexDigit ((x >>> 16) &&& 15), hexDigit ((x >>> 12) &&& 15), hexDigit ((x >>> 8) &&& 15),
   hexDigit ((x >>> 4) &&& 15), hexDigit (x &&& 15)]

/-- SHA-256 of a byte list, as the 64-character lowercase hex digest. -/
def sha256BytesHex (msg : List Nat) : String :=
  let hv := (chunks64 (sha2Pad msg)).foldl sha2Block sha2H0
  ⟨wordToHex hv.a ++ wordToHex hv.b ++ wordToHex hv.c ++ wordToHex hv.d ++
   wordToHex hv.e ++ wordToHex hv.f ++ wordToHex hv.g ++ wordToHex hv.h⟩

/-- UTF-8 encoding of one character, as bytes. -/
def utf8Encode (c : Char) : List Nat :=
  let n := c.toNat
  if n < 0x80 then [n]
  else if n < 0x800 then [0xC0 ||| (n >>> 6), 0x80 ||| (n &&& 0x3F)]
  else if n < 0x10000 then
    [0xE0 ||| (n >>> 12), 0x80 ||| ((n >>> 6) &&& 0x3F), 0x80 ||| (n &&& 0x3F)]
  else
    [0xF0 ||| (n >>> 18), 0x80 ||| ((n >>> 12) &&& 0x3F),
     0x80 ||| ((n >>> 6) &&& 0x3F), 0x80 ||| (n &&& 0x3F)]

/-- UTF-8 bytes of a string. -/
def strBytes (s : String) : List Nat :=
  s.data.foldr (fun c acc => utf8Encode c ++ acc) []

/-- `sha256Hex` from `src/tools/hash.js`: SHA-256 hex digest of the UTF-8
bytes of a string (`crypto.createHash('sha256').update(str, 'utf8').digest('hex')`). -/
def sha256Hex (str : String) : String := sha256BytesHex (strBytes str)

example : sha256Hex "abc" = "ba7816bf8f01cfea414140de5dae2223b00361a396177a9cb410ff61f20015ad" := by
  decide

example : sha256Hex "" = "e3b0c44298fc1c149afbf4c8996fb92427ae41e4649b934ca495991b7852b855" := by
  decide

/-! ## JSON values

JavaScript values handled by the hashing utilities.  An object is the
list of its (string key, value) properties in insertion order; JSON
numbers are modelled as integers (see the file header). -/

/-- A JSON value.  Objects carry their properties in insertion order. -/
inductive Json where
  | null
  | bool (b : Bool)
  | num (n : Int)
  | str (s : String)
  | arr (elems : List Json)
  | obj (kvs : List (String × Json))

mutual
/-- Boolean equality on JSON values. -/
def beqJson : Json → Json → Bool
  | .null, .null => true
  | .bool a, .bool b => a == b
  | .num a, .num b => decide (a = b)
  | .str a, .str b => decide (a = b)
  | .arr xs, .arr ys => beqJsonList xs ys
  | .obj l1, .obj l2 => beqJsonKvs l1 l2
  | _, _ => false

/-- Boolean equality on lists of JSON values. -/
def beqJsonList : List Json → List Json → Bool
  | [], [] => true
  | x :: xs, y :: ys => beqJson x y && beqJsonList xs ys
  | _, _ => false

/-- Boolean equality on property lists. -/
def beqJsonKvs : List (String × Json) → List (String × Json) → Bool
  | [], [] => true
  | (k1, v1) :: r1, (k2, v2) :: r2 => decide (k1 = k2) && beqJson v1 v2 && beqJsonKvs r1 r2
  | _, _ => false
end

theorem beqJson_refl : ∀ a : Json, beqJson a a = true := by
  refine fun a => @Json.rec (fun a => beqJson a a = true)
    (fun xs => beqJsonList xs xs = true)
    (fun l => beqJsonKvs l l = true)
    (fun p => decide (p.1 = p.1) && beqJson p.2 p.2 = true)
    ?_ ?_ ?_ ?_ ?_ ?_ ?_ ?_ ?_ ?_ ?_ a
  · rfl
  · intro b; simp [beqJson]
  · intro n; simp [beqJson]
  · intro s; simp [beqJson]
  · intro xs ih; simpa [beqJson] using ih
  · intro kvs ih; simpa [beqJson] using ih
  · rfl
  · intro x xs ih1 ih2; simp [beqJsonList, ih1, ih2]
  · rfl
  · intro p l ih1 ih2
    cases p with
    | mk k v => simp only [beqJsonKvs]; simp_all
  · intro k v ih; simp [ih]

theorem eq_of_beqJson : ∀ a b : Json, beqJson a b = true → a = b := by
  refine fun a => @Json.rec (fun a => ∀ b, beqJson a b = true → a = b)
    (fun xs => ∀ ys, beqJsonList xs ys = true → xs = ys)
    (fun l1 => ∀ l2, beqJsonKvs l1 l2 = true → l1 = l2)
    (fun p => ∀ q, decide (p.1 = q.1) && beqJson p.2 q.2 = true → p = q)
    ?_ ?_ ?_ ?_ ?_ ?_ ?_ ?_ ?_ ?_ ?_ a
  · intro b h; cases b <;> simp_all [beqJson]
  · intro x b h; cases b <;> simp_all [beqJson]
  · intro n b h; cases b <;> simp_all [beqJson]
  · intro s b h; cases b <;> simp_all [beqJson]
  · intro xs ih b h
    cases b <;> simp only [beqJson] at h
    case arr ys => exact congrArg Json.arr (ih ys h)
    all_goals exact Bool.noConfusion h
  · intro kvs ih b h
    cases b <;> simp only [beqJson] at h
    case obj l2 => exact congrArg Json.obj (ih l2 h)
    all_goals exact Bool.noConfusion h
  · intro ys h; cases ys <;> simp_all [beqJsonList]
  · intro x xs ih1 ih2 ys h
    cases ys with
    | nil => simp_all [beqJsonList]
    | cons y ys =>
      simp only [beqJsonList, Bool.and_eq_true] at h
      rw [ih1 y h.1, ih2 ys h.2]
  · intro l2 h; cases l2 <;> simp_all [beqJsonKvs]
  · intro p l1 ih1 ih2 l2 h
    cases l2 with
    | nil => cases p; simp_all [beqJsonKvs]
    | cons q l2 =>
      cases p with
      | mk k v =>
        cases q with
        | mk k2 v2 =>
          simp only [beqJsonKvs, Bool.and_eq_true] at h
          have := ih1 (k2, v2) (by simp [h.1.1, h.1.2])
          rw [this, ih2 l2 h.2]
  · intro k v ih q h
    cases q with
    | mk k2 v2 =>
      simp only [Bool.and_eq_true, decide_eq_true_eq] at h
      rw [h.1, ih v2 h.2]

instance : DecidableEq Json := fun a b =>
  decidable_of_iff (beqJson a b = true)
    ⟨eq_of_beqJson a b, fun h => h ▸ beqJson_refl a⟩

/-- Strict lexicographic comparison of character lists, the order the JS
`<` operator and the default `Array.prototype.sort` comparator impose on
strings (code-unit-wise; identical to code-point order on the values the
repository handles). -/
def charsLT : List Char → List Char → Bool
  | [], [] => false
  | [], _ :: _ => true
  | _ :: _, [] => false
  | c :: cs, d :: ds =>
    if c.toNat < d.toNat then true
    else if d.toNat < c.toNat then false
    else charsLT cs ds

/-- JS string strict order `a < b`. -/
def strLT (a b : String) : Bool := charsLT a.data b.data

/-- JS string order `a ≤ b` (`!(b < a)`). -/
def strLEb (a b : String) : Bool := !(strLT b a)

/-- The key order (on object properties) used by `Object.keys(obj).sort()`. -/
def kvLE (p q : String × Json) : Prop := strLEb p.1 q.1 = true

instance : DecidableRel kvLE := fun p q => Bool.decEq (strLEb p.1 q.1) true

/-- The string order as a `Prop`, for `sortKeys`. -/
def strLE (a b : String) : Prop := strLEb a b = true

instance : DecidableRel strLE := fun a b => Bool.decEq (strLEb a b) true

/-- Sort a key list as `Object.keys(obj).sort()` does.  `Array.prototype.sort`
is a stable comparison sort; a stable sort's output is determined by the
comparator alone, so the structurally recursive insertion sort (stable)
models it exactly. -/
def sortKeys (keys : List String) : List String := List.insertionSort strLE keys

/-- Sort an object's properties by key, as the canonicalizer does (same
modelling note as `sortKeys`). -/
def sortKvs (kvs : List (String × Json)) : List (String × Json) :=
  List.insertionSort kvLE kvs

mutual
/-- `canonicalize` from `src/tools/hash.js`: `null` and scalars unchanged,
arrays mapped elementwise in order, objects re-emitted with keys sorted
and every value canonicalized recursively.  The source sorts the keys
first and then canonicalizes each value; the comparator reads only the
keys, which per-value canonicalization preserves, so canonicalizing the
values first and then sorting yields the same object (the reconciliation
is proved in `canonicalize_obj_sort_first`). -/
def canonicalize : Json → Json
  | .null => .null
  | .bool b => .bool b
  | .num n => .num n
  | .str s => .str s
  | .arr xs => .arr (canonicalizeList xs)
  | .obj kvs => .obj (sortKvs (canonicalizeKvs kvs))

/-- Elementwise canonicalization of an array (`obj.map(canonicalize)`). -/
def canonicalizeList : List Json → List Json
  | [] => []
  | x :: xs => canonicalize x :: canonicalizeList xs

/-- Canonicalization of each property value of an object. -/
def canonicalizeKvs : List (String × Json) → List (String × Json)
  | [] => []
  | (k, v) :: rest => (k, canonicalize v) :: canonicalizeKvs rest
end

/-- JSON string escaping performed by `JSON.stringify` (quote, backslash,
the short control escapes, and `\u00XX` for other control characters). -/
def escapeChar (c : Char) : List Char :=
  if c = '"' then ['\\', '"']
  else if c = '\\' then ['\\', '\\']
  else if c = '\n' then ['\\', 'n']
  else if c = '\t' then ['\\', 't']
  else if c = '\r' then ['\\', 'r']
  else if c = '\x08' then ['\\', 'b']
  else if c = '\x0c' then ['\\', 'f']
  else if c.toNat < 32 then ['\\', 'u', '0', '0', hexDigit ((c.toNat >>> 4) &&& 15), hexDigit (c.toNat &&& 15)]
  else [c]

/-- A JSON string literal as `JSON.stringify` renders it. -/
def quoteJson (s : String) : String :=
  ⟨'"' :: s.data.foldr (fun c acc => escapeChar c ++ acc) ['"']⟩

mutual
/-- `JSON.stringify(value)` with no replacer and no spacing: the compact
serialization used by `computeJsonProofHash` in `src/tools/hash.js`. -/
def stringify : Json → String
  | .null => "null"
  | .bool true => "true"
  | .bool false => "false"
  | .num n => toString n
  | .str s => quoteJson s
  | .arr xs => "[" ++ stringifyList xs ++ "]"
  | .obj kvs => "\x7b" ++ stringifyKvs kvs ++ "\x7d"

/-- Comma-joined serialization of array elements. -/
def stringifyList : List Json → String
  | [] => ""
  | [x] => stringify x
  | x :: xs => stringify x ++ "," ++ stringifyList xs

/-- Comma-joined serialization of object properties in their stored order. -/
def stringifyKvs : List (String × Json) → String
  | [] => ""
  | [(k, v)] => quoteJson k ++ ":" ++ stringify v
  | (k, v) :: rest => quoteJson k ++ ":" ++ stringify v ++ "," ++ stringifyKvs rest
end

/-- `computeJsonProofHash` from `src/tools/hash.js`, on an already-parsed
value: canonicalize, serialize compactly, SHA-256 over the UTF-8 bytes. -/
def computeJsonProofHash (jsonData : Json) : String :=
  sha256Hex (stringify (canonicalize jsonData))

/-- `computeBinaryProofHash` from `src/tools/hash.js` (also defined
verbatim in both route files): SHA-256 over the raw bytes. -/
def computeBinaryProofHash (buffer : List Nat) : String :=
  sha256BytesHex buffer

example :
    stringify (canonicalize (.obj [("name", .str "Alice"), ("age", .num 30)])) =
      "\x7b\"age\":30,\"name\":\"Alice\"\x7d" := by
  decide

/-! ## Order facts about the key comparator -/

theorem charsLT_irrefl : ∀ x, charsLT x x = false := by
  intro x
  induction x with
  | nil => rfl
  | cons c cs ih => simp [charsLT, ih]

theorem charsLT_asymm : ∀ {x y}, charsLT x y = true → charsLT y x = false := by
  intro x
  induction x with
  | nil => intro y h; cases y <;> simp_all [charsLT]
  | cons c cs ih =>
    intro y h
    cases y with
    | nil => simp_all [charsLT]
    | cons d ds =>
      simp only [charsLT] at h ⊢
      by_cases h1 : c.toNat < d.toNat
      · simp [h1, Nat.lt_asymm h1]
      · by_cases h2 : d.toNat < c.toNat
        · simp [h1, h2] at h
        · simp only [h1, h2, if_false] at h ⊢
          exact ih h

theorem char_eq_of_toNat_eq {c d : Char} (h : c.toNat = d.toNat) : c = d := by
  cases c; cases d
  congr 1
  simp only [Char.toNat] at h
  exact UInt32.toNat.inj h

theorem charsLT_trans : ∀ {x y z}, charsLT x y = true → charsLT y z = true →
    charsLT x z = true := by
  intro x
  induction x with
  | nil =>
    intro y z hxy hyz
    cases y <;> cases z <;> simp_all [charsLT]
  | cons c cs ih =>
    intro y z hxy hyz
    cases y with
    | nil => simp_all [charsLT]
    | cons d ds =>
      cases z with
      | nil => simp_all [charsLT]
      | cons e es =>
        simp only [charsLT] at hxy hyz ⊢
        by_cases h1 : c.toNat < d.toNat
        · by_cases h2 : d.toNat < e.toNat
          · have : c.toNat < e.toNat := by omega
            simp [this]
          · by_cases h4 : e.toNat < d.toNat
            · simp [h2, h4] at hyz
            · have : c.toNat < e.toNat := by omega
              simp [this]
        · by_cases h3 : d.toNat < c.toNat
          · simp [h1, h3] at hxy
          · simp only [h1, h3, if_false] at hxy
            by_cases h2 : d.toNat < e.toNat
            · have : c.toNat < e.toNat := by omega
              simp [this]
            · by_cases h4 : e.toNat < d.toNat
              · simp [h2, h4] at hyz
              · simp only [h2, h4, if_false] at hyz
                have hce : ¬ c.toNat < e.toNat := by omega
                have hec : ¬ e.toNat < c.toNat := by omega
                simp only [hce, hec, if_false]
                exact ih hxy hyz

theorem charsLT_conn : ∀ {x y}, charsLT x y = false → charsLT y x = false → x = y := by
  intro x
  induction x with
  | nil => intro y h _; cases y <;> simp_all [charsLT]
  | cons c cs ih =>
    intro y h h'
    cases y with
    | nil => simp_all [charsLT]
    | cons d ds =>
      simp only [charsLT] at h h'
      by_cases h1 : c.toNat < d.toNat
      · simp [h1] at h
      · by_cases h2 : d.toNat < c.toNat
        · simp [h2, h1] at h'
        · simp only [h1, h2, if_false] at h h'
          have hcd : c = d := char_eq_of_toNat_eq (by omega)
          exact hcd ▸ congrArg (c :: ·) (ih h h')

theorem str_eq_of_data {s t : String} (h : s.data = t.data) : s = t := by
  cases s; cases t; exact congrArg String.mk h

/-- The strict key order on object properties. -/
def kvLT (p q : String × Json) : Prop := strLT p.1 q.1 = true

instance : IsTotal (String × Json) kvLE :=
  ⟨fun a b => by
    simp only [kvLE, strLEb, strLT, Bool.not_eq_true']
    by_cases h : charsLT b.1.data a.1.data = true
    · exact Or.inr (charsLT_asymm h)
    · exact Or.inl (Bool.not_eq_true _ ▸ h)⟩

instance : IsTrans (String × Json) kvLE :=
  ⟨fun a b c hab hbc => by
    simp only [kvLE, strLEb, strLT, Bool.not_eq_true'] at hab hbc ⊢
    by_cases hca : charsLT c.1.data a.1.data = true
    · by_cases hbc' : charsLT b.1.data c.1.data = true
      · exact absurd (charsLT_trans hbc' hca) (by simp [hab])
      · have hbeq : b.1.data = c.1.data :=
          charsLT_conn (Bool.not_eq_true _ ▸ hbc') hbc
        rw [← hbeq] at hca
        simp [hca] at hab
    · exact Bool.not_eq_true _ ▸ hca⟩

instance : IsAntisymm (String × Json) kvLT :=
  ⟨fun a b h1 h2 => absurd h2 (by simp [kvLT, strLT, charsLT_asymm h1])⟩

theorem kvLT_of_kvLE_ne {p q : String × Json} (hle : kvLE p q) (hne : p.1 ≠ q.1) :
    kvLT p q := by
  simp only [kvLE, strLEb, strLT, Bool.not_eq_true'] at hle
  simp only [kvLT, strLT]
  by_cases h : charsLT p.1.data q.1.data = true
  · exact h
  · exact absurd (str_eq_of_data (charsLT_conn (Bool.not_eq_true _ ▸ h) hle)) hne

/-- A key-sorted property list with pairwise-distinct keys is sorted for
the strict key order. -/
theorem sortKvs_sorted_strict (l : List (String × Json))
    (nd : (l.map Prod.fst).Nodup) : (sortKvs l).Sorted kvLT := by
  have hs : (sortKvs l).Sorted kvLE := List.sorted_insertionSort kvLE l
  have hperm : List.Perm ((sortKvs l).map Prod.fst) (l.map Prod.fst) :=
    (List.perm_insertionSort kvLE l).map Prod.fst
  have hnd : ((sortKvs l).map Prod.fst).Nodup := hperm.nodup_iff.mpr nd
  have hne : (sortKvs l).Pairwise (fun p q => p.1 ≠ q.1) := List.pairwise_map.mp hnd
  exact (hs.and hne).imp fun h => kvLT_of_kvLE_ne h.1 h.2

/-- Sorting is invariant under permutation of a duplicate-key-free
property list: the canonical order of a JS object's properties does not
depend on their insertion order. -/
theorem sortKvs_eq_of_perm {l₁ l₂ : List (String × Json)} (h : l₁.Perm l₂)
    (nd : (l₁.map Prod.fst).Nodup) : sortKvs l₁ = sortKvs l₂ := by
  have nd₂ : (l₂.map Prod.fst).Nodup := ((h.map Prod.fst).nodup_iff).mp nd
  exact List.eq_of_perm_of_sorted
    ((List.perm_insertionSort kvLE l₁).trans (h.trans (List.perm_insertionSort kvLE l₂).symm))
    (sortKvs_sorted_strict l₁ nd) (sortKvs_sorted_strict l₂ nd₂)

/-! ## Well-formed JS values and reordering equivalence

A JS object can never hold two properties with the same key, so values
reaching `canonicalize` always have duplicate-free keys at every level;
`wfJson` captures exactly that.  `PermEq a b` says `b` is `a` with object
properties reordered at arbitrary nesting depths (array order untouched). -/

/-- Boolean membership of a key in a key list. -/
def memStr (k : String) : List String → Bool
  | [] => false
  | k2 :: ks => decide (k = k2) || memStr k ks

/-- Boolean duplicate-freedom of a key list. -/
def nodupStr : List String → Bool
  | [] => true
  | k :: ks => !(memStr k ks) && nodupStr ks

theorem memStr_iff_mem {k : String} : ∀ {ks : List String}, memStr k ks = true ↔ k ∈ ks := by
  intro ks
  induction ks with
  | nil => simp [memStr]
  | cons k2 ks ih => simp [memStr, ih]

theorem nodup_of_nodupStr : ∀ {ks : List String}, nodupStr ks = true → ks.Nodup := by
  intro ks
  induction ks with
  | nil => intro _; exact List.nodup_nil
  | cons k2 ks ih =>
    intro h
    simp only [nodupStr, Bool.and_eq_true, Bool.not_eq_true'] at h
    exact List.nodup_cons.mpr ⟨fun hm => by simp [memStr_iff_mem.mpr hm] at h, ih h.2⟩

mutual
/-- Every object key list, at every depth, is duplicate-free (always true
of values originating from JS objects / `JSON.parse`). -/
def wfJson : Json → Bool
  | .null => true
  | .bool _ => true
  | .num _ => true
  | .str _ => true
  | .arr xs => wfList xs
  | .obj kvs => nodupStr (kvs.map Prod.fst) && wfKvs kvs

/-- `wfJson` over the elements of an array. -/
def wfList : List Json → Bool
  | [] => true
  | x :: xs => wfJson x && wfList xs

/-- `wfJson` over the values of an object. -/
def wfKvs : List (String × Json) → Bool
  | [] => true
  | (_, v) :: rest => wfJson v && wfKvs rest
end

mutual
/-- `PermEq a b`: `b` is `a` with object properties reordered at any
nesting depth — keys and values are preserved, array element order is
preserved.  At each object the values are first rewritten pointwise
(`PermEqPairs`) and the resulting property list is then permuted. -/
inductive PermEq : Json → Json → Prop
  | null : PermEq .null .null
  | bool (b : Bool) : PermEq (.bool b) (.bool b)
  | num (n : Int) : PermEq (.num n) (.num n)
  | str (s : String) : PermEq (.str s) (.str s)
  | arr {xs ys : List Json} : PermEqList xs ys → PermEq (.arr xs) (.arr ys)
  | obj {kvs₁ kvs kvs₂ : List (String × Json)} :
      PermEqPairs kvs₁ kvs → List.Perm kvs kvs₂ → PermEq (.obj kvs₁) (.obj kvs₂)

/-- Pointwise `PermEq` over array elements. -/
inductive PermEqList : List Json → List Json → Prop
  | nil : PermEqList [] []
  | cons {x y : Json} {xs ys : List Json} :
      PermEq x y → PermEqList xs ys → PermEqList (x :: xs) (y :: ys)

/-- Pointwise `PermEq` over property values (keys and order unchanged). -/
inductive PermEqPairs : List (String × Json) → List (String × Json) → Prop
  | nil : PermEqPairs [] []
  | cons {k : String} {v₁ v₂ : Json} {l₁ l₂ : List (String × Json)} :
      PermEq v₁ v₂ → PermEqPairs l₁ l₂ → PermEqPairs ((k, v₁) :: l₁) ((k, v₂) :: l₂)
end

theorem canonicalizeKvs_eq_map : ∀ l : List (String × Json),
    canonicalizeKvs l = l.map (fun p => (p.1, canonicalize p.2)) := by
  intro l
  induction l with
  | nil => rfl
  | cons p rest ih => cases p; simp [canonicalizeKvs, ih]

theorem keys_canonicalizeKvs (l : List (String × Json)) :
    (canonicalizeKvs l).map Prod.fst = l.map Prod.fst := by
  rw [canonicalizeKvs_eq_map, List.map_map]
  rfl

/-- Canonicalization identifies values that differ only by object-property
order (at any depth), provided keys are duplicate-free as in JS. -/
theorem canonicalize_eq_of_permEq {a b : Json} (h : PermEq a b)
    (hw : wfJson a = true) : canonicalize a = canonicalize b := by
  refine @PermEq.rec
    (fun a b _ => wfJson a = true → canonicalize a = canonicalize b)
    (fun xs ys _ => wfList xs = true → canonicalizeList xs = canonicalizeList ys)
    (fun l₁ l₂ _ => wfKvs l₁ = true → canonicalizeKvs l₁ = canonicalizeKvs l₂)
    ?_ ?_ ?_ ?_ ?_ ?_ ?_ ?_ ?_ ?_ a b h hw
  · intro _; rfl
  · intro _ _; rfl
  · intro _ _; rfl
  · intro _ _; rfl
  · intro xs ys _ ih hwa
    simp only [wfJson] at hwa
    simp only [canonicalize]
    exact congrArg Json.arr (ih hwa)
  · intro kvs₁ kvs kvs₂ _ hperm ih hwa
    simp only [wfJson, Bool.and_eq_true] at hwa
    obtain ⟨hnd, hwk⟩ := hwa
    simp only [canonicalize]
    have h1 : canonicalizeKvs kvs₁ = canonicalizeKvs kvs := ih hwk
    have h2 : List.Perm (canonicalizeKvs kvs) (canonicalizeKvs kvs₂) := by
      rw [canonicalizeKvs_eq_map, canonicalizeKvs_eq_map]
      exact hperm.map _
    have hnd' : ((canonicalizeKvs kvs₁).map Prod.fst).Nodup := by
      rw [keys_canonicalizeKvs]
      exact nodup_of_nodupStr hnd
    rw [h1] at hnd'
    rw [h1]
    exact congrArg Json.obj (sortKvs_eq_of_perm h2 hnd')
  · intro _; rfl
  · intro x y xs ys _ _ ih1 ih2 hwa
    simp only [wfList, Bool.and_eq_true] at hwa
    simp only [canonicalizeList]
    rw [ih1 hwa.1, ih2 hwa.2]
  · intro _; rfl
  · intro k v₁ v₂ l₁ l₂ _ _ ih1 ih2 hwa
    simp only [wfKvs, Bool.and_eq_true] at hwa
    simp only [canonicalizeKvs]
    rw [ih1 hwa.1, ih2 hwa.2]

/-- C1: for every structured (JSON) value with JS-style duplicate-free
keys, `hash_structured` (`computeJsonProofHash` of `src/tools/hash.js`)
is invariant under reordering of object keys at any nesting depth; and
the concrete input with properties `name = "Alice"`, `age = 30` hashes to
the SHA-256 hex digest of the exact serialized byte string whose
properties appear in the order `age`, `name`. -/
theorem hash_structured_order_invariant :
    (∀ a b : Json, wfJson a = true → PermEq a b →
      computeJsonProofHash a = computeJsonProofHash b) ∧
    computeJsonProofHash (.obj [("name", .str "Alice"), ("age", .num 30)]) =
      sha256Hex "\x7b\"age\":30,\"name\":\"Alice\"\x7d" := by
  constructor
  · intro a b hw hp
    unfold computeJsonProofHash
    rw [canonicalize_eq_of_permEq hp hw]
  · unfold computeJsonProofHash
    have h : stringify (canonicalize (.obj [("name", .str "Alice"), ("age", .num 30)])) =
        "\x7b\"age\":30,\"name\":\"Alice\"\x7d" := by decide
    rw [h]

/-- Witness for C1 at the spec's example pair: the objects with
properties `a = 1, b = 2` and `b = 2, a = 1` hash identically. -/
theorem hash_structured_order_invariant_witness :
    computeJsonProofHash (.obj [("a", .num 1), ("b", .num 2)]) =
      computeJsonProofHash (.obj [("b", .num 2), ("a", .num 1)]) :=
  hash_structured_order_invariant.1 _ _ (by decide)
    (.obj (.cons (.num 1) (.cons (.num 2) .nil)) (List.Perm.swap _ _ _))

/-! ## A JSON parser

Modelled from the spec: the routes call the ECMAScript builtin
`JSON.parse`, which is not code of this repository.  The parser below
implements `JSON.parse` restricted to the fragment the repository's
scenarios use: integer numerals (no fractions or exponents) and string
literals without escape sequences.  Duplicate object keys follow the JS
rule (first occurrence keeps its position, later occurrences overwrite
the value). -/

/-- The `{` character (written via its code point). -/
def braceOpen : Char := Char.ofNat 123

/-- The `}` character (written via its code point). -/
def braceClose : Char := Char.ofNat 125

/-- JSON insignificant whitespace. -/
def isJsonWs (c : Char) : Bool := c = ' ' || c = '\t' || c = '\n' || c = '\r'

/-- Skip insignificant whitespace. -/
def skipWs : List Char → List Char
  | [] => []
  | c :: cs => if isJsonWs c then skipWs cs else c :: cs

/-- ASCII decimal digit test. -/
def isDigit (c : Char) : Bool := 48 ≤ c.toNat && c.toNat ≤ 57

/-- Parse a digit run into a natural number (accumulator-passing). -/
def parseDigits (acc : Nat) : List Char → Nat × List Char
  | [] => (acc, [])
  | c :: cs => if isDigit c then parseDigits (acc * 10 + (c.toNat - 48)) cs else (acc, c :: cs)

/-- Characters allowed unescaped inside a JSON string literal (the
fragment without escape sequences). -/
def isPlainStrChar (c : Char) : Bool := c.toNat ≥ 32 && c ≠ '"' && c ≠ '\\'

/-- Parse a string literal body up to the closing quote. -/
def parseStrBody (acc : List Char) : List Char → Option (String × List Char)
  | [] => none
  | c :: cs =>
    if c = '"' then some (⟨acc.reverse⟩, cs)
    else if isPlainStrChar c then parseStrBody (c :: acc) cs
    else none

/-- First-match lookup of a property value by key. -/
def lookupKv (k : String) : List (String × Json) → Option Json
  | [] => none
  | (k2, v) :: rest => if k = k2 then some v else lookupKv k rest

/-- Remove the first property with the given key. -/
def removeKey (k : String) : List (String × Json) → List (String × Json)
  | [] => []
  | (k2, v) :: rest => if k = k2 then rest else (k2, v) :: removeKey k rest

/-- JS property-assignment order while parsing an object whose members
are built from the right: a key keeps the position of its first
occurrence and the value of its last occurrence. -/
def objInsert (k : String) (v : Json) (rest : List (String × Json)) : List (String × Json) :=
  match lookupKv k rest with
  | some v2 => (k, v2) :: removeKey k rest
  | none => (k, v) :: rest

mutual
/-- Parse one JSON value (fuel-driven recursion). -/
def parseVal : Nat → List Char → Option (Json × List Char)
  | 0, _ => none
  | fuel + 1, cs =>
    match skipWs cs with
    | 'n' :: 'u' :: 'l' :: 'l' :: rest => some (.null, rest)
    | 't' :: 'r' :: 'u' :: 'e' :: rest => some (.bool true, rest)
    | 'f' :: 'a' :: 'l' :: 's' :: 'e' :: rest => some (.bool false, rest)
    | '"' :: rest => (parseStrBody [] rest).map (fun p => (.str p.1, p.2))
    | '-' :: c :: rest =>
      if isDigit c then
        let p := parseDigits (c.toNat - 48) rest
        some (.num (-(p.1 : Int)), p.2)
      else none
    | '[' :: rest =>
      match skipWs rest with
      | ']' :: rest2 => some (.arr [], rest2)
      | rest2 => (parseElems fuel rest2).map (fun p => (.arr p.1, p.2))
    | c :: rest =>
      if c = braceOpen then
        match skipWs rest with
        | c2 :: rest2 =>
          if c2 = braceClose then some (.obj [], rest2)
          else (parseMembers fuel (c2 :: rest2)).map (fun p => (.obj p.1, p.2))
        | [] => none
      else if isDigit c then
        let p := parseDigits (c.toNat - 48) rest
        some (.num (p.1 : Int), p.2)
      else none
    | [] => none

/-- Parse array elements after the opening bracket (first element next). -/
def parseElems : Nat → List Char → Option (List Json × List Char)
  | 0, _ => none
  | fuel + 1, cs => do
    let (v, rest) ← parseVal fuel cs
    match skipWs rest with
    | ',' :: rest2 => (parseElems fuel rest2).map (fun p => (v :: p.1, p.2))
    | ']' :: rest2 => some ([v], rest2)
    | _ => none

/-- Parse object members after the opening brace (first member next). -/
def parseMembers : Nat → List Char → Option (List (String × Json) × List Char)
  | 0, _ => none
  | fuel + 1, cs =>
    match skipWs cs with
    | '"' :: rest => do
      let (k, rest2) ← parseStrBody [] rest
      match skipWs rest2 with
      | ':' :: rest3 => do
        let (v, rest4) ← parseVal fuel rest3
        match skipWs rest4 with
        | ',' :: rest5 =>
          (parseMembers fuel rest5).map (fun p => (objInsert k v p.1, p.2))
        | c :: rest5 =>
          if c = braceClose then some ([(k, v)], rest5) else none
        | [] => none
      | _ => none
    | _ => none
end

/-- `JSON.parse` on a whole string: one value, optionally surrounded by
whitespace, consuming all input. -/
def parseJson (s : String) : Option Json :=
  match parseVal (4 * s.data.length + 4) s.data with
  | some (v, rest) => if skipWs rest = [] then some v else none
  | none => none

example : parseJson "\x7b\"name\":\"Alice\",\"age\":30\x7d" =
    some (.obj [("name", .str "Alice"), ("age", .num 30)]) := by decide

example : parseJson "[1, -2, true, null, \"x\"]" =
    some (.arr [.num 1, .num (-2), .bool true, .null, .str "x"]) := by decide

example : parseJson "\x7b\"a\":1,\x7d" = none := by decide

/-! ## The route-local hash (`computeJsonProofHash` of
`src/backend/routes/verification.js`, lines 6-14, defined identically in
`src/backend/routes/credentials.js`, lines 11-19)

`JSON.stringify(parsed, Object.keys(parsed).sort())` passes the sorted
*top-level* key list as an array replacer: at EVERY object level only
the whitelisted keys are emitted, in whitelist order.  `Object.keys` of a
primitive number/boolean is empty, of a string is its index list, and of
`null` throws a `TypeError` (the function then reports failure). -/

/-- `Object.keys` of a non-null value. -/
def jsKeys : Json → List String
  | .obj kvs => kvs.map Prod.fst
  | .arr xs => (List.range xs.length).map (fun i => toString i)
  | .str s => (List.range s.data.length).map (fun i => toString i)
  | _ => []

/-- Property selection of an array replacer: for each whitelist key in
order, emit the property when the object has it. -/
def selectW (W : List String) (kvs : List (String × Json)) : List (String × Json) :=
  W.filterMap (fun k => (lookupKv k kvs).map (fun v => (k, v)))

mutual
/-- The tree `JSON.stringify(v, W)` serializes: arrays kept whole, every
object filtered and reordered by the whitelist `W`.  (The source filters
while serializing; filtering first and then serializing compactly visits
the identical properties in the identical order.) -/
def applyReplacer (W : List String) : Json → Json
  | .null => .null
  | .bool b => .bool b
  | .num n => .num n
  | .str s => .str s
  | .arr xs => .arr (applyReplacerList W xs)
  | .obj kvs => .obj (selectW W (applyReplacerKvs W kvs))

/-- `applyReplacer` over array elements. -/
def applyReplacerList (W : List String) : List Json → List Json
  | [] => []
  | x :: xs => applyReplacer W x :: applyReplacerList W xs

/-- `applyReplacer` over property values. -/
def applyReplacerKvs (W : List String) : List (String × Json) → List (String × Json)
  | [] => []
  | (k, v) :: rest => (k, applyReplacer W v) :: applyReplacerKvs W rest
end

/-- The canonical string the route-local function hashes:
`JSON.stringify(parsed, Object.keys(parsed).sort())`; `none` models the
`TypeError` of `Object.keys(null)`. -/
def backendCanonicalJson : Json → Option String
  | .null => none
  | v => some (stringify (applyReplacer (sortKeys (jsKeys v)) v))

/-- `computeJsonProofHash` of the backend routes: parse the string, build
the replacer-canonicalized text, hash it; `none` models the thrown
`Invalid JSON data for hashing` error. -/
def backendComputeJsonProofHash (jsonData : String) : Option String :=
  (parseJson jsonData).bind (fun parsed => (backendCanonicalJson parsed).map sha256Hex)

example : backendComputeJsonProofHash "\x7b\"b\":2,\"a\":1\x7d" =
    some (sha256Hex "\x7b\"a\":1,\"b\":2\x7d") := by decide

example : backendComputeJsonProofHash "\x7b\"a\":\x7b\"x\":1\x7d\x7d" =
    some (sha256Hex "\x7b\"a\":\x7b\x7d\x7d") := by decide

/-! ## Relating the route-local hash to the tool hash -/

/-- The strict string order. -/
def strLTp (a b : String) : Prop := strLT a b = true

instance : IsTotal String strLE :=
  ⟨fun a b => by
    simp only [strLE, strLEb, strLT, Bool.not_eq_true']
    by_cases h : charsLT b.data a.data = true
    · exact Or.inr (charsLT_asymm h)
    · exact Or.inl (Bool.not_eq_true _ ▸ h)⟩

instance : IsTrans String strLE :=
  ⟨fun a b c hab hbc => by
    simp only [strLE, strLEb, strLT, Bool.not_eq_true'] at hab hbc ⊢
    by_cases hca : charsLT c.data a.data = true
    · by_cases hbc' : charsLT b.data c.data = true
      · exact absurd (charsLT_trans hbc' hca) (by simp [hab])
      · have hbeq : b.data = c.data :=
          charsLT_conn (Bool.not_eq_true _ ▸ hbc') hbc
        rw [← hbeq] at hca
        simp [hca] at hab
    · exact Bool.not_eq_true _ ▸ hca⟩

theorem strLTp_of_strLE_ne {a b : String} (hle : strLE a b) (hne : a ≠ b) :
    strLTp a b := by
  simp only [strLE, strLEb, strLT, Bool.not_eq_true'] at hle
  simp only [strLTp, strLT]
  by_cases h : charsLT a.data b.data = true
  · exact h
  · exact absurd (str_eq_of_data (charsLT_conn (Bool.not_eq_true _ ▸ h) hle)) hne

/-- A sorted duplicate-free key list is strictly sorted. -/
theorem sortKeys_sorted_strict (l : List String) (nd : l.Nodup) :
    (sortKeys l).Sorted strLTp := by
  have hs : (sortKeys l).Sorted strLE := List.sorted_insertionSort strLE l
  have hnd : (sortKeys l).Nodup := (List.perm_insertionSort strLE l).nodup_iff.mpr nd
  exact (hs.and hnd).imp fun h => strLTp_of_strLE_ne h.1 h.2

theorem mem_selectW {q : String × Json} {W : List String} {kvs : List (String × Json)}
    (h : q ∈ selectW W kvs) : q.1 ∈ W := by
  simp only [selectW, List.mem_filterMap] at h
  obtain ⟨k, hk, hf⟩ := h
  cases hl : lookupKv k kvs with
  | none => rw [hl] at hf; exact absurd hf (by simp)
  | some v =>
    rw [hl] at hf
    have hq : (k, v) = q := Option.some.inj hf
    rw [← hq]
    exact hk

/-- Selection by a strictly sorted whitelist is strictly key-sorted. -/
theorem selectW_sorted {W : List String} {kvs : List (String × Json)}
    (h : W.Pairwise strLTp) : (selectW W kvs).Pairwise kvLT := by
  induction W with
  | nil => exact List.Pairwise.nil
  | cons k W ih =>
    have hk : ∀ b ∈ W, strLTp k b := fun b hb => List.rel_of_pairwise_cons h hb
    simp only [selectW, List.filterMap_cons]
    cases hl : lookupKv k kvs with
    | none => exact ih h.tail
    | some v =>
      refine List.Pairwise.cons ?_ (ih h.tail)
      intro q hq
      exact hk q.1 (mem_selectW hq)

theorem selectW_congr {W : List String} {l₁ l₂ : List (String × Json)}
    (h : ∀ k ∈ W, lookupKv k l₁ = lookupKv k l₂) : selectW W l₁ = selectW W l₂ := by
  induction W with
  | nil => rfl
  | cons k W ih =>
    simp only [selectW, List.filterMap_cons]
    rw [h k (List.mem_cons_self _ _)]
    cases lookupKv k l₂ <;>
      simpa [selectW] using ih (fun k2 hk2 => h k2 (List.mem_cons_of_mem _ hk2))

theorem selectW_keys_exact : ∀ {kvs : List (String × Json)},
    (kvs.map Prod.fst).Nodup → selectW (kvs.map Prod.fst) kvs = kvs := by
  intro kvs
  induction kvs with
  | nil => intro _; rfl
  | cons p rest ih =>
    intro nd
    cases p with
    | mk k v =>
      simp only [List.map_cons] at nd ⊢
      have hk : k ∉ rest.map Prod.fst := (List.nodup_cons.mp nd).1
      simp only [selectW, List.filterMap_cons, lookupKv, if_pos rfl, Option.map_some]
      have hcongr : selectW (rest.map Prod.fst) ((k, v) :: rest) = selectW (rest.map Prod.fst) rest := by
        apply selectW_congr
        intro k2 hk2
        have : ¬ k2 = k := fun he => hk (he ▸ hk2)
        simp [lookupKv, this]
      simpa [selectW] using hcongr.trans (ih (List.nodup_cons.mp nd).2)

/-- Selecting by the sorted key whitelist is exactly the canonical sort
of a duplicate-key-free object. -/
theorem selectW_sortKeys_eq_sortKvs {kvs : List (String × Json)}
    (nd : (kvs.map Prod.fst).Nodup) :
    selectW (sortKeys (kvs.map Prod.fst)) kvs = sortKvs kvs := by
  have h1 : List.Perm (selectW (sortKeys (kvs.map Prod.fst)) kvs)
      (selectW (kvs.map Prod.fst) kvs) :=
    (List.perm_insertionSort strLE (kvs.map Prod.fst)).filterMap _
  have h2 : selectW (kvs.map Prod.fst) kvs = kvs := selectW_keys_exact nd
  have h3 : List.Perm kvs (sortKvs kvs) := (List.perm_insertionSort kvLE kvs).symm
  exact List.eq_of_perm_of_sorted ((h2 ▸ h1).trans h3)
    (selectW_sorted (sortKeys_sorted_strict _ nd)) (sortKvs_sorted_strict kvs nd)

/-- Scalar JSON values (`null`, booleans, numbers, strings). -/
def scalarJson : Json → Bool
  | .null => true
  | .bool _ => true
  | .num _ => true
  | .str _ => true
  | _ => false

theorem applyReplacer_scalar {W : List String} {v : Json} (h : scalarJson v = true) :
    applyReplacer W v = v := by
  cases v <;> simp_all [scalarJson, applyReplacer]

theorem applyReplacerKvs_scalar {W : List String} : ∀ {kvs : List (String × Json)},
    (∀ p ∈ kvs, scalarJson p.2 = true) → applyReplacerKvs W kvs = kvs := by
  intro kvs
  induction kvs with
  | nil => intro _; rfl
  | cons p rest ih =>
    intro h
    cases p with
    | mk k v =>
      simp only [applyReplacerKvs]
      rw [applyReplacer_scalar (h (k, v) (List.mem_cons_self _ _)), ih (fun q hq => h q (List.mem_cons_of_mem _ hq))]

theorem canonicalize_scalar {v : Json} (h : scalarJson v = true) : canonicalize v = v := by
  cases v <;> simp_all [scalarJson, canonicalize]

theorem canonicalizeKvs_scalar : ∀ {kvs : List (String × Json)},
    (∀ p ∈ kvs, scalarJson p.2 = true) → canonicalizeKvs kvs = kvs := by
  intro kvs
  induction kvs with
  | nil => intro _; rfl
  | cons p rest ih =>
    intro h
    cases p with
    | mk k v =>
      simp only [canonicalizeKvs]
      rw [canonicalize_scalar (h (k, v) (List.mem_cons_self _ _)), ih (fun q hq => h q (List.mem_cons_of_mem _ hq))]

/-- C2 (amended): the route-local `computeJsonProofHash` agrees with the
tool's `computeJsonProofHash` on flat objects — duplicate-free keys, all
values scalar — because there the top-level key whitelist covers every
key; the agreement does NOT extend to nested objects (see the
counterexample theorem). -/
theorem route_hash_matches_tool_on_flat_objects :
    ∀ kvs : List (String × Json), (kvs.map Prod.fst).Nodup →
      (∀ p ∈ kvs, scalarJson p.2 = true) →
      (backendCanonicalJson (.obj kvs)).map sha256Hex =
        some (computeJsonProofHash (.obj kvs)) := by
  intro kvs nd hs
  have htree : applyReplacer (sortKeys (kvs.map Prod.fst)) (.obj kvs) =
      canonicalize (.obj kvs) := by
    simp only [applyReplacer, canonicalize]
    rw [applyReplacerKvs_scalar hs, canonicalizeKvs_scalar hs, selectW_sortKeys_eq_sortKvs nd]
  show (some (stringify (applyReplacer (sortKeys (jsKeys (.obj kvs))) (.obj kvs)))).map
      sha256Hex = some (computeJsonProofHash (.obj kvs))
  rw [show jsKeys (Json.obj kvs) = kvs.map Prod.fst from rfl, htree]
  rfl

/-- Witness for the amended C2 at the flat object with properties
`b = 2, a = 1`. -/
theorem route_hash_matches_tool_on_flat_objects_witness :
    ((([("b", Json.num 2), ("a", Json.num 1)]).map Prod.fst).Nodup ∧
      (∀ p ∈ [("b", Json.num 2), ("a", Json.num 1)], scalarJson p.2 = true)) ∧
    (backendCanonicalJson (.obj [("b", .num 2), ("a", .num 1)])).map sha256Hex =
      some (computeJsonProofHash (.obj [("b", .num 2), ("a", .num 1)])) :=
  ⟨⟨by decide, by decide⟩,
    route_hash_matches_tool_on_flat_objects _ (by decide) (by decide)⟩

/-- Counterexample to C2 as stated: on the nested object parsed from the
text with property `a` holding the object with property `x = 1`, the
backend route's hash (whose array replacer drops the nested key `x`)
differs from the verification tool's hash of the same JSON value. -/
theorem route_hash_differs_from_tool_on_nested_objects :
    parseJson "\x7b\"a\":\x7b\"x\":1\x7d\x7d" =
      some (.obj [("a", .obj [("x", .num 1)])]) ∧
    backendComputeJsonProofHash "\x7b\"a\":\x7b\"x\":1\x7d\x7d" ≠
      some (computeJsonProofHash (.obj [("a", .obj [("x", .num 1)])])) := by
  decide

/-! ## The upload handler's jsonData branch
(`src/backend/routes/credentials.js`, lines 77-88)

The handler parses `req.body.jsonData` itself and passes the PARSED
value to the route-local `computeJsonProofHash`, which calls
`JSON.parse` again on it; ECMAScript `JSON.parse` first coerces its
argument with `ToString`, so a parsed object arrives as the text
`[object Object]`, which does not parse. -/

mutual
/-- ECMAScript `ToString` of a JSON-shaped value (`String(v)`): objects
render as `[object Object]`, arrays join their elements with commas
(`null` elements render empty). -/
def jsToString : Json → String
  | .null => "null"
  | .bool true => "true"
  | .bool false => "false"
  | .num n => toString n
  | .str s => s
  | .arr xs => jsToStringArr xs
  | .obj _ => "[object Object]"

/-- `Array.prototype.toString` (join with commas). -/
def jsToStringArr : List Json → String
  | [] => ""
  | [.null] => ""
  | [x] => jsToString x
  | .null :: xs => "," ++ jsToStringArr xs
  | x :: xs => jsToString x ++ "," ++ jsToStringArr xs
end

/-- The `jsonData` branch of `POST /upload`: parse the field, hand the
parsed value to the route-local `computeJsonProofHash` (which re-parses
its `ToString` coercion); any throw in the branch is caught and
re-raised as `ValidationError('Invalid JSON data')`.  Returns the
computed proof hash on success. -/
def uploadJsonDataBranch (jsonData : String) : Except String String :=
  match parseJson jsonData with
  | none => .error "Invalid JSON data"
  | some v =>
    match backendComputeJsonProofHash (jsToString v) with
    | none => .error "Invalid JSON data"
    | some h => .ok h

/-- C3 (code bug): for every `jsonData` string parsing as a JSON object —
the documented credential payload shape — the upload handler rejects the
request with `ValidationError('Invalid JSON data')` instead of computing
a proof hash, because the already-parsed object is re-parsed via its
`[object Object]` coercion. -/
theorem upload_jsonData_object_always_rejected :
    ∀ (s : String) (kvs : List (String × Json)), parseJson s = some (.obj kvs) →
      uploadJsonDataBranch s = .error "Invalid JSON data" := by
  intro s kvs h
  unfold uploadJsonDataBranch
  rw [h]
  show (match backendComputeJsonProofHash "[object Object]" with
    | none => Except.error "Invalid JSON data"
    | some h => Except.ok h) = Except.error "Invalid JSON data"
  rw [show backendComputeJsonProofHash "[object Object]" = none from by decide]

/-- Witness for C3's failing input: the valid JSON text with properties
`name = "Alice"`, `age = 30` parses as an object yet the upload branch
reports `Invalid JSON data`. -/
theorem upload_jsonData_object_always_rejected_witness :
    parseJson "\x7b\"name\":\"Alice\",\"age\":30\x7d" =
      some (.obj [("name", .str "Alice"), ("age", .num 30)]) ∧
    uploadJsonDataBranch "\x7b\"name\":\"Alice\",\"age\":30\x7d" =
      .error "Invalid JSON data" :=
  ⟨by decide, upload_jsonData_object_always_rejected _
    [("name", .str "Alice"), ("age", .num 30)] (by decide)⟩

/-! ## The upload handler's file branch and the tool's file hashing -/

/-- The file branch of `POST /upload`
(`src/backend/routes/credentials.js`, lines 90-109): the proof hash of an
uploaded file is always `computeBinaryProofHash(file.buffer)` — no JSON
auto-detection.  File contents are modelled as text whose buffer is its
UTF-8 byte sequence. -/
def uploadFileProofHash (content : String) : String :=
  computeBinaryProofHash (strBytes content)

/-- `computeFileProofHash` from `src/tools/hash.js`: try to parse the
file as JSON; hash structurally on success, over raw bytes on failure. -/
def computeFileProofHash (content : String) : String :=
  match parseJson content with
  | some v => computeJsonProofHash v
  | none => computeBinaryProofHash (strBytes content)

/-- C4 (amended): the upload route applies no JSON auto-detection to
files — a file whose bytes are valid JSON still receives the raw-bytes
binary hash; trial-parse auto-detection exists only in the standalone
tool's `computeFileProofHash`, which hashes such a file structurally. -/
theorem upload_file_branch_has_no_autodetection :
    ∀ (content : String) (v : Json), parseJson content = some v →
      uploadFileProofHash content = computeBinaryProofHash (strBytes content) ∧
      computeFileProofHash content = computeJsonProofHash v := by
  intro content v h
  refine ⟨rfl, ?_⟩
  unfold computeFileProofHash
  rw [h]

/-- Witness for the amended C4 at a concrete JSON file. -/
theorem upload_file_branch_has_no_autodetection_witness :
    parseJson "\x7b\"b\":1,\"a\":2\x7d" =
      some (.obj [("b", .num 1), ("a", .num 2)]) ∧
    uploadFileProofHash "\x7b\"b\":1,\"a\":2\x7d" =
      computeBinaryProofHash (strBytes "\x7b\"b\":1,\"a\":2\x7d") ∧
    computeFileProofHash "\x7b\"b\":1,\"a\":2\x7d" =
      computeJsonProofHash (.obj [("b", .num 1), ("a", .num 2)]) :=
  ⟨by decide, upload_file_branch_has_no_autodetection _ _ (by decide)⟩

/-- Counterexample to C4 as stated: the file whose bytes are the valid
JSON text with properties `b = 1, a = 2` (keys unsorted) does NOT
receive the structured-path hash from the upload route — the route's
binary hash differs from the structured hash of the parsed value. -/
theorem upload_file_json_bytes_not_structured_hash :
    parseJson "\x7b\"b\":1,\"a\":2\x7d" =
      some (.obj [("b", .num 1), ("a", .num 2)]) ∧
    uploadFileProofHash "\x7b\"b\":1,\"a\":2\x7d" ≠
      computeJsonProofHash (.obj [("b", .num 1), ("a", .num 2)]) := by
  decide

/-! ## Credential storage and the upload handler
(`src/backend/routes/credentials.js`, `src/backend/services/nillion.js`)

The NillionDB collection is modelled as the list of stored records in
insertion order; fields not touched by any claim (mime type, timestamps)
are omitted.  `getCredentialByProofHash` models the service function of
the same name: find the first record whose `proof_hash` equals the query
(returning `null`, i.e. `none`, when there is none), and
`storeCredential` models `createStandardData` appending one record. -/

/-- A stored credential record (plaintext part relevant to the claims). -/
structure CredentialRecord where
  credential_id : String
  proof_hash : String
  file_name : String
deriving Repr, DecidableEq

/-- `nillionService.getCredentialByProofHash` (`src/backend/services/nillion.js`,
line 1498: `dataArray.find(record => record.proof_hash === proofHash)`;
returns `null` when nothing matches). -/
def getCredentialByProofHash (store : List CredentialRecord) (proofHash : String) :
    Option CredentialRecord :=
  store.find? (fun r => decide (r.proof_hash = proofHash))

/-- The upload response fields the claims inspect. -/
structure UploadResponse where
  success : Bool
  proofHash : String
  status : String
  message : String
deriving Repr, DecidableEq

/-- `POST /upload`, file branch, as a state-passing function over the
store: compute the binary proof hash, reject on a present-and-different
`clientProofHash` (JS truthiness: an empty string is skipped), short-
circuit when a record with this proof hash already exists, otherwise
append one new record.  The returned list is the store after the call;
an `.error` result models a thrown `ValidationError` (no write occurs). -/
def uploadHandler (store : List CredentialRecord) (content fileName : String)
    (clientProofHash : Option String) (cid : String) :
    Except String UploadResponse × List CredentialRecord :=
  let proofHash := computeBinaryProofHash (strBytes content)
  let clientMismatch := match clientProofHash with
    | some c => !(decide (c = "")) && !(decide (c = proofHash))
    | none => false
  if clientMismatch then
    (.error "Client proof hash does not match server computation", store)
  else
    match getCredentialByProofHash store proofHash with
    | some existing =>
      (.ok { success := true, proofHash := existing.proof_hash, status := "vaulted",
             message := "Credential already exists" }, store)
    | none =>
      (.ok { success := true, proofHash := proofHash, status := "vaulted",
             message := "Credential uploaded and stored in NillionDB" },
       store ++ [{ credential_id := cid, proof_hash := proofHash, file_name := fileName }])

theorem getCredentialByProofHash_append_self {store : List CredentialRecord}
    {h : String} {r : CredentialRecord} (hnone : getCredentialByProofHash store h = none)
    (hr : r.proof_hash = h) : getCredentialByProofHash (store ++ [r]) h = some r := by
  induction store with
  | nil => simp [getCredentialByProofHash, List.find?, hr]
  | cons x rest ih =>
    simp only [getCredentialByProofHash, List.cons_append, List.find?] at hnone ⊢
    cases hx : decide (x.proof_hash = h) with
    | true => rw [hx] at hnone; exact absurd hnone (by simp)
    | false =>
      rw [hx] at hnone
      exact ih hnone

/-- The proof hash returned by the duplicate branch is the computed one
(the matched record's hash equals the query by the `find` predicate). -/
theorem getCredentialByProofHash_hash_eq {store : List CredentialRecord} {h : String}
    {r : CredentialRecord} (hf : getCredentialByProofHash store h = some r) :
    r.proof_hash = h := by
  have hp := List.find?_some hf
  simpa using hp

/-- C5: upload is idempotent.  (1) When a record with the computed proof
hash already exists, the handler returns that hash with status `vaulted`
and message `Credential already exists`, and the store is unchanged.
(2) Uploading byte-identical content twice yields the same proof hash
both times and the second call leaves the store of the first call
unchanged (so the `/list` record count stays constant). -/
theorem upload_idempotent :
    (∀ (store : List CredentialRecord) (content fileName cid : String),
      (getCredentialByProofHash store (computeBinaryProofHash (strBytes content))).isSome →
      ∃ r, uploadHandler store content fileName none cid = (.ok r, store) ∧
        r.proofHash = computeBinaryProofHash (strBytes content) ∧
        r.status = "vaulted" ∧ r.message = "Credential already exists") ∧
    (∀ (store : List CredentialRecord) (content fileName cid1 cid2 : String),
      ∃ r1 s1 r2, uploadHandler store content fileName none cid1 = (.ok r1, s1) ∧
        uploadHandler s1 content fileName none cid2 = (.ok r2, s1) ∧
        r2.proofHash = r1.proofHash) := by
  constructor
  · intro store content fileName cid hsome
    cases hl : getCredentialByProofHash store (computeBinaryProofHash (strBytes content)) with
    | none => rw [hl] at hsome; exact absurd hsome (by simp)
    | some existing =>
      refine ⟨{ success := true, proofHash := existing.proof_hash, status := "vaulted",
                message := "Credential already exists" }, ?_,
        getCredentialByProofHash_hash_eq hl, rfl, rfl⟩
      simp only [uploadHandler]
      rw [hl]
      rfl
  · intro store content fileName cid1 cid2
    cases hl : getCredentialByProofHash store (computeBinaryProofHash (strBytes content)) with
    | some existing =>
      refine ⟨{ success := true, proofHash := existing.proof_hash, status := "vaulted",
                message := "Credential already exists" }, store,
              { success := true, proofHash := existing.proof_hash, status := "vaulted",
                message := "Credential already exists" }, ?_, ?_, rfl⟩
      · simp only [uploadHandler]
        rw [hl]
        rfl
      · simp only [uploadHandler]
        rw [hl]
        rfl
    | none =>
      refine ⟨{ success := true, proofHash := computeBinaryProofHash (strBytes content),
                status := "vaulted",
                message := "Credential uploaded and stored in NillionDB" },
              store ++ [{ credential_id := cid1,
                          proof_hash := computeBinaryProofHash (strBytes content),
                          file_name := fileName }],
              { success := true, proofHash := computeBinaryProofHash (strBytes content),
                status := "vaulted", message := "Credential already exists" }, ?_, ?_, rfl⟩
      · simp only [uploadHandler]
        rw [hl]
        rfl
      · simp only [uploadHandler]
        rw [getCredentialByProofHash_append_self hl rfl]
        rfl

/-- Witness for C5: with one record holding the hash of `"hello"`
already stored, re-uploading `"hello"` returns the same hash and writes
nothing; and a double upload into the empty store returns equal hashes. -/
theorem upload_idempotent_witness :
    ((getCredentialByProofHash
        [{ credential_id := "c1", proof_hash := computeBinaryProofHash (strBytes "hello"),
           file_name := "a.txt" }]
        (computeBinaryProofHash (strBytes "hello"))).isSome ∧
      ∃ r, uploadHandler
          [{ credential_id := "c1", proof_hash := computeBinaryProofHash (strBytes "hello"),
             file_name := "a.txt" }] "hello" "b.txt" none "c2" =
          (.ok r,
            [{ credential_id := "c1", proof_hash := computeBinaryProofHash (strBytes "hello"),
               file_name := "a.txt" }]) ∧
        r.proofHash = computeBinaryProofHash (strBytes "hello") ∧
        r.status = "vaulted" ∧ r.message = "Credential already exists") ∧
    (∃ r1 s1 r2, uploadHandler [] "hello" "a.txt" none "c1" = (.ok r1, s1) ∧
      uploadHandler s1 "hello" "a.txt" none "c2" = (.ok r2, s1) ∧
      r2.proofHash = r1.proofHash) :=
  ⟨⟨by decide, upload_idempotent.1 _ "hello" "b.txt" "c2" (by decide)⟩,
    upload_idempotent.2 [] "hello" "a.txt" "c1" "c2"⟩

/-! ## The verification endpoints
(`src/backend/routes/verification.js` `POST /verify-proof`,
`src/backend/routes/credentials.js` `POST /verify`) -/

/-- Hex digit as accepted by the Joi `hex()` validator. -/
def isHexChar (c : Char) : Bool :=
  (48 ≤ c.toNat && c.toNat ≤ 57) || (97 ≤ c.toNat && c.toNat ≤ 102) ||
    (65 ≤ c.toNat && c.toNat ≤ 70)

/-- The `Joi.string().hex().length(64).required()` validation of the
`proofHash` body field. -/
def isHex64 (s : String) : Bool := decide (s.data.length = 64) && s.data.all isHexChar

/-- Outcome of `POST /verify-proof`: a validation rejection, the normal
not-found response (`success:false, exists:false, 'Credential not
found'`), or the found response carrying the record and the
`proof_hash_matches` comparison. -/
inductive VerifyProofResult where
  | invalid (message : String)
  | notFound (proofHash : String)
  | found (credential : CredentialRecord) (proofHashMatches : Bool)
deriving Repr, DecidableEq

/-- `POST /verify-proof` (verification.js lines 109-192), up to the
anchor enrichment of the found branch. -/
def verifyProofHandler (store : List CredentialRecord) (proofHash : String) :
    VerifyProofResult :=
  if !(isHex64 proofHash) then .invalid "Invalid request data"
  else
    match getCredentialByProofHash store proofHash with
    | none => .notFound proofHash
    | some c => .found c (decide (c.proof_hash = proofHash))

/-- Outcome of `POST /verify` on credentials.js. -/
inductive VerifyResult where
  | invalid (message : String)
  | notFound (proofHash : String)
  | found (credential : CredentialRecord)
deriving Repr, DecidableEq

/-- `POST /verify` (credentials.js lines 316-343): the NillionDB query is
wrapped in try/catch, so a failing query (modelled by `queryFails`) also
yields the normal not-found response. -/
def verifyHandler (store : List CredentialRecord) (queryFails : Bool)
    (proofHash : String) : VerifyResult :=
  if !(isHex64 proofHash) then .invalid "Invalid request data"
  else
    match (if queryFails then none else getCredentialByProofHash store proofHash) with
    | none => .notFound proofHash
    | some c => .found c

/-- C7: for every syntactically valid 64-hex proof hash with no stored
record, both verification endpoints return their normal not-found
response (with `exists: false` on `/verify-proof`) — a value, never a
thrown error; on `/verify` this holds even when the store query itself
fails. -/
theorem verify_negative_lookup :
    ∀ (store : List CredentialRecord) (h : String), isHex64 h = true →
      getCredentialByProofHash store h = none →
      verifyProofHandler store h = .notFound h ∧
      (∀ queryFails, verifyHandler store queryFails h = .notFound h) := by
  intro store h hhex hnone
  constructor
  · simp only [verifyProofHandler, hhex]
    rw [hnone]
    rfl
  · intro queryFails
    cases queryFails
    · simp only [verifyHandler, hhex]
      rw [hnone]
      rfl
    · simp only [verifyHandler, hhex]
      rfl

/-- Witness for C7 at a 64-hex hash over the empty store. -/
theorem verify_negative_lookup_witness :
    (isHex64 ⟨List.replicate 64 'a'⟩ = true ∧
      getCredentialByProofHash [] ⟨List.replicate 64 'a'⟩ = none) ∧
    verifyProofHandler [] ⟨List.replicate 64 'a'⟩ = .notFound ⟨List.replicate 64 'a'⟩ ∧
    (∀ queryFails, verifyHandler [] queryFails ⟨List.replicate 64 'a'⟩ =
      .notFound ⟨List.replicate 64 'a'⟩) :=
  ⟨⟨by decide, by decide⟩, verify_negative_lookup [] _ (by decide) (by decide)⟩

/-- C10: the client-hash cross-check.  A present 64-hex `clientProofHash`
differing from the server-computed hash is rejected with
`ValidationError('Client proof hash does not match server computation')`
and the store is untouched (the check precedes the duplicate check and
the storage write); an absent or equal `clientProofHash` leaves the
upload behaviour exactly unchanged. -/
theorem client_hash_crosscheck :
    (∀ (store : List CredentialRecord) (content fileName cid c : String),
      isHex64 c = true → c ≠ computeBinaryProofHash (strBytes content) →
      uploadHandler store content fileName (some c) cid =
        (.error "Client proof hash does not match server computation", store)) ∧
    (∀ (store : List CredentialRecord) (content fileName cid : String),
      uploadHandler store content fileName
          (some (computeBinaryProofHash (strBytes content))) cid =
        uploadHandler store content fileName none cid) := by
  constructor
  · intro store content fileName cid c hhex hne
    have hne' : c ≠ "" := by
      intro he
      rw [he] at hhex
      exact absurd hhex (by decide)
    simp [uploadHandler, hne, hne']
  · intro store content fileName cid
    simp [uploadHandler]

/-- Witness for C10: a mismatching all-zero client hash is rejected with
the store untouched, and supplying the correct client hash leaves the
upload unchanged. -/
theorem client_hash_crosscheck_witness :
    ((isHex64 ⟨List.replicate 64 '0'⟩ = true ∧
        ⟨List.replicate 64 '0'⟩ ≠ computeBinaryProofHash (strBytes "hello")) ∧
      uploadHandler [] "hello" "a.txt" (some ⟨List.replicate 64 '0'⟩) "c1" =
        (.error "Client proof hash does not match server computation", [])) ∧
    uploadHandler [] "hello" "a.txt"
        (some (computeBinaryProofHash (strBytes "hello"))) "c1" =
      uploadHandler [] "hello" "a.txt" none "c1" :=
  ⟨⟨⟨by decide, by decide⟩,
      client_hash_crosscheck.1 [] "hello" "a.txt" "c1" _ (by decide) (by decide)⟩,
    client_hash_crosscheck.2 [] "hello" "a.txt" "c1"⟩

/-! ## The anchor service (`src/backend/services/anchor.js`)

`sendTransaction` tries four RPC method names in order; an outcome per
method is either a thrown request (`response` keeps its prior value), a
response carrying `data.error`, or a success response carrying the
transaction id (which breaks the loop).  When no method succeeds the
function returns the simulated proof-based anchor whose transaction hash
is the SHA-256 of the proof hash.  The in-memory anchor store is a
`Map` keyed by proof hash (`anchorStore.set` replaces, `get` retrieves). -/

/-- Result of `sendTransaction`. -/
structure TxResult where
  txHash : String
  status : String
  anchorType : String
deriving Repr, DecidableEq

/-- Outcome of posting one candidate RPC method. -/
inductive RpcOutcome where
  | throw
  | rpcError
  | success (txid : String)
deriving Repr, DecidableEq

/-- The method loop of `sendTransaction` (lines 154-174): `resp` is the
`response` variable — `none` when never assigned, an error response, or
a success response (which breaks the loop). -/
def tryMethods : Option (Except Unit String) → List RpcOutcome → Option (Except Unit String)
  | resp, [] => resp
  | resp, o :: rest =>
    match o with
    | .throw => tryMethods resp rest
    | .rpcError => tryMethods (some (.error ())) rest
    | .success txid => some (.ok txid)

/-- `sendTransaction` (lines 140-229): blockchain-pending on a success
response, otherwise the simulated proof-based anchor hashed from
`signedTx.proofHash || signedTx.signature`. -/
def sendTransaction (proofHash signature : String) (outcomes : List RpcOutcome) : TxResult :=
  match tryMethods none outcomes with
  | some (.ok txid) => { txHash := txid, status := "pending", anchorType := "blockchain" }
  | _ => { txHash := sha256Hex (if proofHash = "" then signature else proofHash),
           status := "simulated", anchorType := "proof_hash_verification" }

/-- An anchor record (the fields the claims inspect). -/
structure AnchorData where
  id : String
  credential_id : String
  proof_hash : String
  tx_hash : String
  status : String
  anchor_type : String
deriving Repr, DecidableEq

/-- `anchorService.storeAnchor` (line 535): `Map.set` — replace the
record under an existing key, else add it. -/
def storeAnchor : List (String × AnchorData) → String → AnchorData → List (String × AnchorData)
  | [], h, a => [(h, a)]
  | (k, v) :: rest, h, a => if h = k then (k, a) :: rest else (k, v) :: storeAnchor rest h a

/-- `anchorService.getAnchorByProofHash` (line 539): `Map.get` or `null`. -/
def getAnchorByProofHash : List (String × AnchorData) → String → Option AnchorData
  | [], _ => none
  | (k, v) :: rest, h => if h = k then some v else getAnchorByProofHash rest h

/-- `anchorCredential` (lines 302-491) up to its asynchronous
confirmation poll: verify the credential exists, send the transaction,
settle the anchor record's status, store it.  `txHash0` stands for the
locally computed signature hash (overwritten by the transaction result
in every branch). -/
def anchorCredential (store : List CredentialRecord) (ast : List (String × AnchorData))
    (credentialId proofHash anchorId txHash0 : String) (outcomes : List RpcOutcome) :
    Except String (AnchorData × List (String × AnchorData)) :=
  match getCredentialByProofHash store proofHash with
  | none => .error ("Credential with proof hash " ++ proofHash ++ " not found in NillionDB")
  | some _ =>
    let txResult := sendTransaction proofHash txHash0 outcomes
    let status := if txResult.anchorType = "proof_hash_verification" ||
        txResult.status = "simulated" || txResult.status = "proof_based"
      then "verified" else "pending"
    let anchorData : AnchorData :=
      { id := anchorId, credential_id := credentialId,
        proof_hash := proofHash, tx_hash := txResult.txHash, status := status,
        anchor_type := txResult.anchorType }
    .ok (anchorData, storeAnchor ast proofHash anchorData)

theorem tryMethods_no_success : ∀ (outcomes : List RpcOutcome)
    (resp : Option (Except Unit String)),
    (∀ o ∈ outcomes, ∀ t, o ≠ .success t) → (∀ t, resp ≠ some (.ok t)) →
    ∀ t, tryMethods resp outcomes ≠ some (.ok t) := by
  intro outcomes
  induction outcomes with
  | nil => intro resp _ hr t; exact hr t
  | cons o rest ih =>
    intro resp ho hr t
    cases o with
    | throw => exact ih resp (fun o2 h2 => ho o2 (List.mem_cons_of_mem _ h2)) hr t
    | rpcError =>
      exact ih (some (.error ())) (fun o2 h2 => ho o2 (List.mem_cons_of_mem _ h2))
        (fun t2 h2 => by simp at h2) t
    | success txid => exact absurd rfl (ho (.success txid) (List.mem_cons_self _ _) txid)

/-- C6: when no RPC method succeeds, `anchorCredential` still settles the
anchor: no error is raised, the stored record's anchor kind is
`proof_hash_verification`, its status is the terminal `verified`, and its
transaction hash is the SHA-256 hex digest of the proof hash itself. -/
theorem anchor_falls_back_to_proof_hash_verification :
    ∀ (store : List CredentialRecord) (ast : List (String × AnchorData))
      (credentialId proofHash anchorId txHash0 : String) (outcomes : List RpcOutcome),
      (∀ o ∈ outcomes, ∀ t, o ≠ .success t) →
      (getCredentialByProofHash store proofHash).isSome = true → proofHash ≠ "" →
      ∃ a, anchorCredential store ast credentialId proofHash anchorId txHash0 outcomes =
          .ok (a, storeAnchor ast proofHash a) ∧
        a.anchor_type = "proof_hash_verification" ∧ a.status = "verified" ∧
        a.tx_hash = sha256Hex proofHash := by
  intro store ast credentialId proofHash anchorId txHash0 outcomes hfail hsome hne
  have htx : sendTransaction proofHash txHash0 outcomes =
      { txHash := sha256Hex proofHash, status := "simulated",
        anchorType := "proof_hash_verification" } := by
    unfold sendTransaction
    cases htm : tryMethods none outcomes with
    | none => simp [if_neg hne]
    | some r =>
      cases r with
      | error u => simp [if_neg hne]
      | ok txid =>
        exact absurd htm (tryMethods_no_success outcomes none hfail (fun t h => by simp at h) txid)
  cases hl : getCredentialByProofHash store proofHash with
  | none => rw [hl] at hsome; exact absurd hsome (by simp)
  | some c =>
    refine ⟨{ id := anchorId, credential_id := credentialId, proof_hash := proofHash,
              tx_hash := sha256Hex proofHash, status := "verified",
              anchor_type := "proof_hash_verification" }, ?_, rfl, rfl, rfl⟩
    unfold anchorCredential
    rw [hl, htx]
    rfl

/-- Witness for C6: a stored credential with proof hash `abc`, all four
RPC methods failing. -/
theorem anchor_falls_back_witness :
    ((∀ o ∈ [RpcOutcome.throw, .rpcError, .throw, .throw], ∀ t : String, o ≠ .success t) ∧
      (getCredentialByProofHash
        [{ credential_id := "c1", proof_hash := "abc", file_name := "a.txt" }]
        "abc").isSome = true ∧ "abc" ≠ "") ∧
    ∃ a, anchorCredential
        [{ credential_id := "c1", proof_hash := "abc", file_name := "a.txt" }]
        [] "c1" "abc" "anchor-1" "sig" [RpcOutcome.throw, .rpcError, .throw, .throw] =
        .ok (a, storeAnchor [] "abc" a) ∧
      a.anchor_type = "proof_hash_verification" ∧ a.status = "verified" ∧
      a.tx_hash = sha256Hex "abc" :=
  ⟨⟨(by intro o ho; fin_cases ho <;> exact fun t h => nomatch h), by decide, by decide⟩,
    anchor_falls_back_to_proof_hash_verification _ [] "c1" "abc" "anchor-1" "sig" _
      (by intro o ho; fin_cases ho <;> exact fun t h => nomatch h)
      (by decide) (by decide)⟩

/-! ## Anchor history under re-submission (`anchor.js` lines 525-541) -/

theorem getAnchor_storeAnchor_self : ∀ (m : List (String × AnchorData)) (h : String)
    (a : AnchorData), getAnchorByProofHash (storeAnchor m h a) h = some a := by
  intro m h a
  induction m with
  | nil => simp [storeAnchor, getAnchorByProofHash]
  | cons p rest ih =>
    cases p with
    | mk k v =>
      simp only [storeAnchor]
      by_cases hk : h = k
      · simp [getAnchorByProofHash, hk]
      · simp [getAnchorByProofHash, hk, ih]

theorem storeAnchor_filter_length : ∀ (m : List (String × AnchorData)) (h : String)
    (a : AnchorData), (m.filter (fun p => decide (p.1 = h))).length ≤ 1 →
    ((storeAnchor m h a).filter (fun p => decide (p.1 = h))).length = 1 := by
  intro m h a
  induction m with
  | nil => intro _; simp [storeAnchor]
  | cons p rest ih =>
    intro hle
    cases p with
    | mk k v =>
      simp only [storeAnchor]
      by_cases hk : h = k
      · subst hk
        rw [if_pos rfl]
        rw [List.filter_cons_of_pos (by simp)] at hle
        rw [List.filter_cons_of_pos (by simp)]
        simp only [List.length_cons] at hle ⊢
        omega
      · have hk2 : ¬ (k = h) := fun he => hk he.symm
        rw [if_neg hk]
        rw [List.filter_cons_of_neg (by simp [hk2])] at hle
        rw [List.filter_cons_of_neg (by simp [hk2])]
        exact ih hle

theorem nodup_keys_filter_le_one : ∀ (m : List (String × AnchorData)) (h : String),
    (m.map Prod.fst).Nodup → (m.filter (fun p => decide (p.1 = h))).length ≤ 1 := by
  intro m h
  induction m with
  | nil => intro _; simp
  | cons p rest ih =>
    intro nd
    cases p with
    | mk k v =>
      simp only [List.map_cons, List.nodup_cons] at nd
      simp only [List.filter_cons, decide_eq_true_eq]
      by_cases hk : k = h
      · subst hk
        have : rest.filter (fun p => decide (p.1 = k)) = [] := by
          apply List.filter_eq_nil_iff.mpr
          intro q hq
          simp only [decide_eq_true_eq]
          intro he
          exact nd.1 (he ▸ List.mem_map_of_mem Prod.fst hq)
        simp [this]
      · simp only [if_neg hk]
        exact ih nd.2

/-- C8 (amended): re-submitting an anchor for a proof hash builds a fresh
`AnchorRecord` (new id), but the in-memory anchor store — a `Map` keyed
by proof hash whose `set` overwrites — retains only the most recent
record per proof hash: after a re-submission the store holds exactly one
record for the hash, and `getAnchorByProofHash` (what verification
surfaces) returns that latest record.  History is therefore not
append-only. -/
theorem anchor_store_keeps_only_latest :
    ∀ (m : List (String × AnchorData)) (h : String) (a1 a2 : AnchorData),
      (m.map Prod.fst).Nodup →
      getAnchorByProofHash (storeAnchor (storeAnchor m h a1) h a2) h = some a2 ∧
      ((storeAnchor (storeAnchor m h a1) h a2).filter
          (fun p => decide (p.1 = h))).length = 1 := by
  intro m h a1 a2 nd
  refine ⟨getAnchor_storeAnchor_self _ h a2, ?_⟩
  exact storeAnchor_filter_length _ h a2
    (Nat.le_of_eq (storeAnchor_filter_length m h a1 (nodup_keys_filter_le_one m h nd)))

/-- Witness for the amended C8: two successive submissions into the
empty store for the same hash. -/
theorem anchor_store_keeps_only_latest_witness :
    getAnchorByProofHash
      (storeAnchor (storeAnchor [] "h"
        { id := "anchor-1", credential_id := "c", proof_hash := "h",
          tx_hash := "t1", status := "failed", anchor_type := "blockchain" }) "h"
        { id := "anchor-2", credential_id := "c", proof_hash := "h",
          tx_hash := "t2", status := "verified", anchor_type := "proof_hash_verification" })
      "h" =
      some { id := "anchor-2", credential_id := "c", proof_hash := "h",
             tx_hash := "t2", status := "verified",
             anchor_type := "proof_hash_verification" } ∧
    ((storeAnchor (storeAnchor [] "h"
        { id := "anchor-1", credential_id := "c", proof_hash := "h",
          tx_hash := "t1", status := "failed", anchor_type := "blockchain" }) "h"
        { id := "anchor-2", credential_id := "c", proof_hash := "h",
          tx_hash := "t2", status := "verified",
          anchor_type := "proof_hash_verification" }).filter
        (fun p => decide (p.1 = "h"))).length = 1 :=
  anchor_store_keeps_only_latest [] "h" _ _ (by decide)

/-- Counterexample to C8 as stated: after re-submitting an anchor for
proof hash `h` (a fresh record with a new id, as after a failed
blockchain anchor), the store holds ONE record for `h` — the failed
record did not accumulate, it was overwritten and is gone. -/
theorem anchor_resubmission_overwrites :
    storeAnchor (storeAnchor [] "h"
        { id := "anchor-1", credential_id := "c", proof_hash := "h",
          tx_hash := "t1", status := "failed", anchor_type := "blockchain" }) "h"
      { id := "anchor-2", credential_id := "c", proof_hash := "h",
        tx_hash := "t2", status := "verified", anchor_type := "proof_hash_verification" } =
      [("h", { id := "anchor-2", credential_id := "c", proof_hash := "h",
               tx_hash := "t2", status := "verified",
               anchor_type := "proof_hash_verification" })] ∧
    ¬ ({ id := "anchor-1", credential_id := "c", proof_hash := "h",
         tx_hash := "t1", status := "failed",
         anchor_type := "blockchain" : AnchorData } ∈
        (storeAnchor (storeAnchor [] "h"
          { id := "anchor-1", credential_id := "c", proof_hash := "h",
            tx_hash := "t1", status := "failed", anchor_type := "blockchain" }) "h"
          { id := "anchor-2", credential_id := "c", proof_hash := "h",
            tx_hash := "t2", status := "verified",
            anchor_type := "proof_hash_verification" }).map Prod.snd) := by
  decide

/-! ## Plaintext-field size validation
(`src/backend/services/nillion.js`, `storeCredentialReal`, lines 534-615)

Every plaintext field of the record to be stored must encode to at most
4096 UTF-8 bytes (`size_bytes`, a number, is measured on its JSON
encoding).  The first pass walks the fields in insertion order: an
oversized `file_name` is truncated (keeping its extension when
`lastIndexOf('.') > 0`); any other oversized field throws.  A second
pass re-checks everything (including the possibly truncated `file_name`)
and throws on any remaining violation.  Error strings abbreviate the
source messages, which append the measured size. -/

/-- The plaintext fields of a credential record. -/
structure PlaintextFields where
  credential_id : String
  proof_hash : String
  file_name : String
  file_type : String
  size_bytes : Nat
  stored_at : String
deriving Repr, DecidableEq

/-- UTF-8 encoded size of a string field
(`Buffer.from(String(v), 'utf8').length`). -/
def fieldSize (s : String) : Nat := (strBytes s).length

/-- Index of the last `.` in a character list, if any
(`String.prototype.lastIndexOf('.')`). -/
def lastDotAux (i : Nat) (best : Option Nat) : List Char → Option Nat
  | [] => best
  | c :: rest => lastDotAux (i + 1) (if c = '.' then some i else best) rest

/-- `fileName.lastIndexOf('.')` as an optional index. -/
def lastIndexOfDot (cs : List Char) : Option Nat := lastDotAux 0 none cs

/-- The `file_name` truncation of the first validation pass: keep the
extension when the last dot is at a positive index, truncating the stem
to 3500 characters; otherwise keep the first 3500 characters. -/
def truncateFileName (s : String) : String :=
  match lastIndexOfDot s.data with
  | some i => if 0 < i then ⟨(s.data.take i).take 3500 ++ s.data.drop i⟩
              else ⟨s.data.take 3500⟩
  | none => ⟨s.data.take 3500⟩

/-- First validation pass (lines 548-587): fields in insertion order;
oversized `file_name` truncated, any other oversized field throws. -/
def validatePass1 (f : PlaintextFields) : Except String PlaintextFields :=
  if fieldSize f.credential_id > 4096 then
    .error "Plaintext field 'credential_id' is too large"
  else if fieldSize f.proof_hash > 4096 then
    .error "Plaintext field 'proof_hash' is too large"
  else
    let f1 := if fieldSize f.file_name > 4096 then
        { f with file_name := truncateFileName f.file_name } else f
    if fieldSize f1.file_type > 4096 then
      .error "Plaintext field 'file_type' is too large"
    else if fieldSize (toString f1.size_bytes) > 4096 then
      .error "Plaintext field 'size_bytes' is too large"
    else if fieldSize f1.stored_at > 4096 then
      .error "Plaintext field 'stored_at' is too large"
    else .ok f1

/-- Second validation pass (lines 589-609): every field, including
`file_name`, throws when still oversized. -/
def validatePass2 (f : PlaintextFields) : Except String PlaintextFields :=
  if fieldSize f.credential_id > 4096 then
    .error "Plaintext field 'credential_id' is too large"
  else if fieldSize f.proof_hash > 4096 then
    .error "Plaintext field 'proof_hash' is too large"
  else if fieldSize f.file_name > 4096 then
    .error "Plaintext field 'file_name' is too large"
  else if fieldSize f.file_type > 4096 then
    .error "Plaintext field 'file_type' is too large"
  else if fieldSize (toString f.size_bytes) > 4096 then
    .error "Plaintext field 'size_bytes' is too large"
  else if fieldSize f.stored_at > 4096 then
    .error "Plaintext field 'stored_at' is too large"
  else .ok f

/-- The plaintext-field validation of `storeCredentialReal`: both passes. -/
def validatePlaintextFields (f : PlaintextFields) : Except String PlaintextFields :=
  (validatePass1 f).bind validatePass2

/-- C9 (amended): a record all of whose plaintext fields encode to at
most 4096 bytes (4096 included) passes the validation unchanged; an
oversized field other than `file_name` makes the store operation throw
an error naming that field (a generic `Error`, raised after the
collection read/create interaction, not a pre-collaborator
`ValidationError`); an oversized `file_name` is instead truncated and
the record is accepted whenever the truncation fits. -/
theorem plaintext_field_validation :
    (∀ f : PlaintextFields,
      fieldSize f.credential_id ≤ 4096 → fieldSize f.proof_hash ≤ 4096 →
      fieldSize f.file_name ≤ 4096 → fieldSize f.file_type ≤ 4096 →
      fieldSize (toString f.size_bytes) ≤ 4096 → fieldSize f.stored_at ≤ 4096 →
      validatePlaintextFields f = .ok f) ∧
    (∀ f : PlaintextFields, fieldSize f.credential_id > 4096 →
      validatePlaintextFields f = .error "Plaintext field 'credential_id' is too large") ∧
    (∀ f : PlaintextFields, fieldSize f.credential_id ≤ 4096 →
      fieldSize f.proof_hash > 4096 →
      validatePlaintextFields f = .error "Plaintext field 'proof_hash' is too large") ∧
    (∀ f : PlaintextFields, fieldSize f.credential_id ≤ 4096 →
      fieldSize f.proof_hash ≤ 4096 → fieldSize f.file_type > 4096 →
      validatePlaintextFields f = .error "Plaintext field 'file_type' is too large") ∧
    (∀ f : PlaintextFields, fieldSize f.credential_id ≤ 4096 →
      fieldSize f.proof_hash ≤ 4096 → fieldSize f.file_type ≤ 4096 →
      fieldSize (toString f.size_bytes) > 4096 →
      validatePlaintextFields f = .error "Plaintext field 'size_bytes' is too large") ∧
    (∀ f : PlaintextFields, fieldSize f.credential_id ≤ 4096 →
      fieldSize f.proof_hash ≤ 4096 → fieldSize f.file_type ≤ 4096 →
      fieldSize (toString f.size_bytes) ≤ 4096 → fieldSize f.stored_at > 4096 →
      validatePlaintextFields f = .error "Plaintext field 'stored_at' is too large") ∧
    (∀ f : PlaintextFields, fieldSize f.credential_id ≤ 4096 →
      fieldSize f.proof_hash ≤ 4096 → fieldSize f.file_name > 4096 →
      fieldSize f.file_type ≤ 4096 → fieldSize (toString f.size_bytes) ≤ 4096 →
      fieldSize f.stored_at ≤ 4096 →
      fieldSize (truncateFileName f.file_name) ≤ 4096 →
      validatePlaintextFields f = .ok { f with file_name := truncateFileName f.file_name }) := by
  refine ⟨?_, ?_, ?_, ?_, ?_, ?_, ?_⟩
  · intro f h1 h2 h3 h4 h5 h6
    have n1 : ¬ fieldSize f.credential_id > 4096 := by omega
    have n2 : ¬ fieldSize f.proof_hash > 4096 := by omega
    have n3 : ¬ fieldSize f.file_name > 4096 := by omega
    have n4 : ¬ fieldSize f.file_type > 4096 := by omega
    have n5 : ¬ fieldSize (toString f.size_bytes) > 4096 := by omega
    have n6 : ¬ fieldSize f.stored_at > 4096 := by omega
    simp [validatePlaintextFields, Except.bind, validatePass1, validatePass2, n1, n2, n3, n4, n5, n6]
  · intro f h1
    simp [validatePlaintextFields, Except.bind, validatePass1, h1]
  · intro f h1 h2
    have n1 : ¬ fieldSize f.credential_id > 4096 := by omega
    simp [validatePlaintextFields, Except.bind, validatePass1, n1, h2]
  · intro f h1 h2 h4
    have n1 : ¬ fieldSize f.credential_id > 4096 := by omega
    have n2 : ¬ fieldSize f.proof_hash > 4096 := by omega
    by_cases h3 : fieldSize f.file_name > 4096 <;>
      simp [validatePlaintextFields, Except.bind, validatePass1, n1, n2, h3, h4]
  · intro f h1 h2 h4 h5
    have n1 : ¬ fieldSize f.credential_id > 4096 := by omega
    have n2 : ¬ fieldSize f.proof_hash > 4096 := by omega
    have n4 : ¬ fieldSize f.file_type > 4096 := by omega
    by_cases h3 : fieldSize f.file_name > 4096 <;>
      simp [validatePlaintextFields, Except.bind, validatePass1, n1, n2, h3, n4, h5]
  · intro f h1 h2 h4 h5 h6
    have n1 : ¬ fieldSize f.credential_id > 4096 := by omega
    have n2 : ¬ fieldSize f.proof_hash > 4096 := by omega
    have n4 : ¬ fieldSize f.file_type > 4096 := by omega
    have n5 : ¬ fieldSize (toString f.size_bytes) > 4096 := by omega
    by_cases h3 : fieldSize f.file_name > 4096 <;>
      simp [validatePlaintextFields, Except.bind, validatePass1, n1, n2, h3, n4, n5, h6]
  · intro f h1 h2 h3 h4 h5 h6 h7
    have n1 : ¬ fieldSize f.credential_id > 4096 := by omega
    have n2 : ¬ fieldSize f.proof_hash > 4096 := by omega
    have n4 : ¬ fieldSize f.file_type > 4096 := by omega
    have n5 : ¬ fieldSize (toString f.size_bytes) > 4096 := by omega
    have n6 : ¬ fieldSize f.stored_at > 4096 := by omega
    have n7 : ¬ fieldSize (truncateFileName f.file_name) > 4096 := by omega
    simp [validatePlaintextFields, Except.bind, validatePass1, validatePass2, n1, n2, h3, n4, n5, n6, n7]

/-- Witness for the amended C9 at an in-bounds record. -/
theorem plaintext_field_validation_witness :
    validatePlaintextFields
      { credential_id := "c1", proof_hash := "abc", file_name := "a.txt",
        file_type := "text/plain", size_bytes := 5,
        stored_at := "2024-01-01T00:00:00.000Z" } =
      .ok { credential_id := "c1", proof_hash := "abc", file_name := "a.txt",
            file_type := "text/plain", size_bytes := 5,
            stored_at := "2024-01-01T00:00:00.000Z" } :=
  plaintext_field_validation.1 _ (by decide) (by decide) (by decide) (by decide)
    (by decide) (by decide)

instance {ε α : Type} [DecidableEq ε] [DecidableEq α] : DecidableEq (Except ε α) := fun a b =>
  match a, b with
  | .ok x, .ok y =>
    match decEq x y with
    | isTrue h => isTrue (by rw [h])
    | isFalse h => isFalse (fun c => h (by injection c))
  | .error x, .error y =>
    match decEq x y with
    | isTrue h => isTrue (by rw [h])
    | isFalse h => isFalse (fun c => h (by injection c))
  | .ok _, .error _ => isFalse (fun c => Except.noConfusion c)
  | .error _, .ok _ => isFalse (fun c => Except.noConfusion c)

theorem strBytes_replicate_a : ∀ n, strBytes ⟨List.replicate n 'a'⟩ = List.replicate n 97 := by
  intro n
  induction n with
  | zero => rfl
  | succ n ih =>
    show ('a' :: List.replicate n 'a').foldr (fun c acc => utf8Encode c ++ acc) [] =
      97 :: List.replicate n 97
    rw [List.foldr_cons]
    show utf8Encode 'a' ++ strBytes ⟨List.replicate n 'a'⟩ = 97 :: List.replicate n 97
    rw [ih]
    rfl

theorem fieldSize_replicate_a (n : Nat) : fieldSize ⟨List.replicate n 'a'⟩ = n := by
  unfold fieldSize
  rw [strBytes_replicate_a]
  exact List.length_replicate n 97

theorem lastDotAux_replicate_a : ∀ (n i : Nat) (best : Option Nat),
    lastDotAux i best (List.replicate n 'a') = best := by
  intro n
  induction n with
  | zero => intro i best; rfl
  | succ n ih =>
    intro i best
    show lastDotAux (i + 1) (if 'a' = '.' then some i else best) (List.replicate n 'a') = best
    rw [if_neg (by decide)]
    exact ih (i + 1) best

theorem truncateFileName_replicate :
    truncateFileName ⟨List.replicate 4097 'a'⟩ = ⟨List.replicate 3500 'a'⟩ := by
  unfold truncateFileName lastIndexOfDot
  rw [lastDotAux_replicate_a]
  show String.mk ((List.replicate 4097 'a').take 3500) = ⟨List.replicate 3500 'a'⟩
  rw [List.take_replicate]
  rfl

/-- Counterexample to C9 as stated: a record whose `file_name` encodes
to 4097 bytes is NOT rejected — the validation truncates the name to
3500 characters and accepts the record. -/
theorem plaintext_oversize_file_name_accepted :
    fieldSize (String.mk (List.replicate 4097 'a')) = 4097 ∧
    validatePlaintextFields
      { credential_id := "c1", proof_hash := "abc",
        file_name := String.mk (List.replicate 4097 'a'),
        file_type := "text/plain", size_bytes := 5,
        stored_at := "2024-01-01T00:00:00.000Z" } =
      .ok { credential_id := "c1", proof_hash := "abc",
            file_name := String.mk (List.replicate 3500 'a'),
            file_type := "text/plain", size_bytes := 5,
            stored_at := "2024-01-01T00:00:00.000Z" } := by
  refine ⟨fieldSize_replicate_a 4097, ?_⟩
  have h1 : ¬ fieldSize "c1" > 4096 := by decide
  have h2 : ¬ fieldSize "abc" > 4096 := by decide
  have h3 : fieldSize (⟨List.replicate 4097 'a'⟩ : String) > 4096 := by
    rw [fieldSize_replicate_a]
    omega
  have h4 : ¬ fieldSize "text/plain" > 4096 := by decide
  have h5 : ¬ fieldSize (toString (5 : Nat)) > 4096 := by decide
  have h6 : ¬ fieldSize "2024-01-01T00:00:00.000Z" > 4096 := by decide
  have h3' : ¬ fieldSize (⟨List.replicate 3500 'a'⟩ : String) > 4096 := by
    rw [fieldSize_replicate_a]
    omega
  have htr := truncateFileName_replicate
  revert h3 h3' htr
  generalize (⟨List.replicate 4097 'a'⟩ : String) = big
  generalize (⟨List.replicate 3500 'a'⟩ : String) = small
  intro h3 h3' htr
  simp [validatePlaintextFields, Except.bind, validatePass1, validatePass2,
    h1, h2, h3, h4, h5, h6, htr, h3']

end NillionVault
